import Mathlib

/-!
Verification of the dnsacmed core against its specification.

The definitions below are a shallow embedding of the Go sources:
`pkg/model` (validation, CIDR allow-lists, secret generation),
`pkg/db` (the credential store and the two-slot TXT rotation),
`pkg/dns` (the authoritative DNS responder) and
`pkg/api` (the authentication middleware).
Strings are Lean `String`s (byte positions coincide with character
positions for the ASCII data handled here); machine integers are `Nat`;
the SQL tables are lists of row structures kept in rowid (scan) order.
-/

/-! ## pkg/model: string sanitation and validation -/

/-- `strings.ToLower` on a character list (ASCII case folding). -/
def toLowerL (cs : List Char) : List Char := cs.map Char.toLower

/-- `strings.ToLower`. -/
def toLowerS (s : String) : String := String.mk (toLowerL s.data)

/-- Membership in the URL-safe base64 alphabet without padding,
the complement of the character class in `SanitizeString`'s regular
expression. -/
def isB64UrlChar (c : Char) : Bool :=
  (decide ('A' ≤ c) && decide (c ≤ 'Z')) ||
  (decide ('a' ≤ c) && decide (c ≤ 'z')) ||
  (decide ('0' ≤ c) && decide (c ≤ '9')) ||
  c == '-' || c == '_'

/-- `model.SanitizeString`: delete every character outside the URL-safe
base64 alphabet. -/
def SanitizeString (s : String) : String :=
  String.mk (s.data.filter isB64UrlChar)

/-- `api.validKey`: a key is valid when it is exactly 40 runes long and
sanitizing removes nothing (both length checks of the source). -/
def validKey (k : String) : Bool :=
  let kn := SanitizeString k
  if k.data.length = 40 ∧ kn.data.length = 40 then true else false

/-- The alphabet of `encoding/base64.URLEncoding`. -/
def b64Alphabet : List Char :=
  "ABCDEFGHIJKLMNOPQRSTUVWXYZabcdefghijklmnopqrstuvwxyz0123456789-_".data

/-- The base64 digit for a 6-bit group. -/
def b64Char (n : Nat) : Char := b64Alphabet.getD n 'A'

/-- `encoding/base64.URLEncoding.EncodeToString` over a byte list:
three input bytes become four alphabet characters, a trailing partial
group is padded with `=`. -/
def base64URLEncode : List Nat → List Char
  | b1 :: b2 :: b3 :: rest =>
      b64Char (b1 >>> 2) ::
      b64Char (((b1 &&& 3) <<< 4) ||| (b2 >>> 4)) ::
      b64Char (((b2 &&& 15) <<< 2) ||| (b3 >>> 6)) ::
      b64Char (b3 &&& 63) :: base64URLEncode rest
  | [b1, b2] =>
      [b64Char (b1 >>> 2), b64Char (((b1 &&& 3) <<< 4) ||| (b2 >>> 4)),
       b64Char ((b2 &&& 15) <<< 2), '=']
  | [b1] =>
      [b64Char (b1 >>> 2), b64Char ((b1 &&& 3) <<< 4), '=', '=']
  | [] => []

/-- `model.generatePassword`: the URL-safe base64 encoding of the 30
random bytes read from `crypto/rand` (the random bytes are the
argument of the model). -/
def generatePassword (bs : List Nat) : String :=
  String.mk (base64URLEncode bs)

/-! ## pkg/model: CIDR allow-lists -/

/-- An IP address as its list of bytes (`net.IP`); the empty list models
`nil`, the result of a failed `net.ParseIP`. -/
abbrev IP := List Nat

/-- A parsed network (`net.IPNet`): network number and mask, as byte
lists of equal length. -/
structure IPNet where
  ip : List Nat
  mask : List Nat
deriving DecidableEq

/-- `net.IPNet.Contains` (Go standard library): the candidate matches
when it has the network's length and agrees with the network number on
every masked byte. -/
def IPNet.Contains (n : IPNet) (x : IP) : Bool :=
  if x.length = n.ip.length ∧ x.length = n.mask.length then
    (List.range x.length).all fun i =>
      (n.ip.getD i 0) &&& (n.mask.getD i 0) == (x.getD i 0) &&& (n.mask.getD i 0)
  else false

/-- `model.CIDRSlice`: the allow-list, as its parsed networks. -/
abbrev CIDRSlice := List IPNet

/-- `CIDRSlice.Contains`: an empty slice allows every address, otherwise
some network must contain the address. -/
def CIDRSlice.Contains (c : CIDRSlice) (x : IP) : Bool :=
  if c.isEmpty then true
  else c.any fun n => n.Contains x

/-- `CIDRSlice.ContainsAny`: with no candidate addresses, access is
allowed only when the slice is empty; otherwise some candidate must be
contained. -/
def CIDRSlice.ContainsAny (c : CIDRSlice) (xs : List IP) : Bool :=
  if xs.isEmpty then c.isEmpty
  else xs.any fun x => c.Contains x

/-! ## pkg/model: the user record -/

/-- `model.ACMETxtPost`: the JSON body of an update request. -/
structure ACMETxtPost where
  Subdomain : String
  Value : String
deriving DecidableEq

/-- `model.ACMETxt`: a user record. `AllowFrom` holds the parsed valid
entries of the stored allow-list (the string parsing performed by
`CIDRSlice.ValidEntries` via `net.ParseCIDR` is Go standard library). -/
structure ACMETxt where
  Username : String
  Password : String
  Subdomain : String
  Value : String
  AllowFrom : CIDRSlice
deriving DecidableEq

/-- The `nil` IP produced by `net.ParseIP` on a non-address such as the
empty string. -/
def nilIP : IP := []

/-- `ACMETxt.IsAllowedFrom`: range not limited when the allow-list has
no (valid) entries, otherwise some entry must contain the remote IP. -/
def ACMETxt.IsAllowedFrom (a : ACMETxt) (x : IP) : Bool :=
  if a.AllowFrom.isEmpty then true
  else a.AllowFrom.any fun n => n.Contains x

/-- `ACMETxt.IsAllowedFromList`: an empty header list falls back to
`IsAllowedFrom` with the `nil` IP (so everyone has access only when no
allow-list is present). -/
def ACMETxt.IsAllowedFromList (a : ACMETxt) (xs : List IP) : Bool :=
  if xs.isEmpty then a.IsAllowedFrom nilIP
  else xs.any fun x => a.IsAllowedFrom x

/-! ## pkg/db: the credential store

The two SQL tables are lists of row structures kept in insertion
(rowid) order, which is the scan order of the backend; `nextRowid`
models the backend's rowid allocation. -/

/-- A row of the `txt` table. -/
structure TxtRow where
  rowid : Nat
  Subdomain : String
  Value : String
  LastUpdate : Nat
deriving DecidableEq

/-- A row of the `records` table. -/
structure DBRecord where
  Username : String
  Password : String
  Subdomain : String
  AllowFrom : CIDRSlice
deriving DecidableEq

/-- The visible database state. -/
structure DBState where
  records : List DBRecord
  txt : List TxtRow
  nextRowid : Nat
deriving DecidableEq

/-- `acmedb.NewTXTValuesInTransaction`: execute the slot `INSERT` twice.
`ok1`/`ok2` say whether each `tx.Exec` succeeds.  The source discards
both `Exec` results (`_, _ = tx.Exec(instr)`) and returns its `err`
variable, which is never assigned: the returned error is always `none`,
whatever happened to the inserts. -/
def NewTXTValuesInTransaction (tx : DBState) (subdomain : String)
    (ok1 ok2 : Bool) : DBState × Option String :=
  let tx1 := if ok1 then
      { tx with txt := tx.txt ++ [⟨tx.nextRowid, subdomain, "", 0⟩],
                nextRowid := tx.nextRowid + 1 }
    else tx
  let tx2 := if ok2 then
      { tx1 with txt := tx1.txt ++ [⟨tx1.nextRowid, subdomain, "", 0⟩],
                 nextRowid := tx1.nextRowid + 1 }
    else tx1
  (tx2, none)

/-- `acmedb.Register`.  The randomly generated user `a` and the bcrypt
hash of its password are inputs of the model (both come from external
randomness); `okRec`, `ok1`, `ok2` say whether the `records` insert and
the two `txt` inserts succeed.  The deferred handler commits the
transaction when the (outer) `err` is nil and rolls back otherwise;
the call to `NewTXTValuesInTransaction` checks a shadowed `err`, so its
outcome cannot prevent the commit. -/
def Register (s : DBState) (a : ACMETxt) (passwordHash : String)
    (okRec ok1 ok2 : Bool) : Option ACMETxt × DBState :=
  if okRec then
    let tx := { s with records :=
        s.records ++ [⟨a.Username, passwordHash, a.Subdomain, a.AllowFrom⟩] }
    let res := NewTXTValuesInTransaction tx a.Subdomain ok1 ok2
    match res.2 with
    | some _ => (none, res.1)
    | none => (some a, res.1)
  else (none, s)

/-- `acmedb.getModelFromRow`: build the user model from a `records`
row. -/
def getModelFromRow (r : DBRecord) : ACMETxt :=
  ⟨r.Username, r.Password, r.Subdomain, "", r.AllowFrom⟩

/-- `acmedb.GetByUsername`: `SELECT ... WHERE Username=$1 LIMIT 1`,
`none` models the "no user" error. -/
def GetByUsername (s : DBState) (u : String) : Option ACMETxt :=
  (s.records.find? fun r => r.Username == u).map getModelFromRow

/-- `acmedb.GetTXTForDomain`: sanitize the domain, then
`SELECT Value FROM txt WHERE Subdomain=$1 LIMIT 2` in scan order.
The no-rows case is not an error: it yields the empty list. -/
def GetTXTForDomain (s : DBState) (domain : String) : List String :=
  let domain := SanitizeString domain
  ((s.txt.filter fun r => r.Subdomain == domain).take 2).map fun r => r.Value

/-- The first row reached by `ORDER BY LastUpdate LIMIT 1` under the
backend's scan order: the earliest row carrying the minimal
`LastUpdate` (a later row replaces the current best only when strictly
smaller). -/
def oldestRowid (rows : List TxtRow) : Option Nat :=
  match rows with
  | [] => none
  | r :: rs =>
      some ((rs.foldl (fun b x => if x.LastUpdate < b.LastUpdate then x else b) r).rowid)

/-- `acmedb.Update`: overwrite value and timestamp of the row selected
by `WHERE rowid=(SELECT rowid FROM txt WHERE Subdomain=$3 ORDER BY
LastUpdate LIMIT 1)`; when the subdomain has no rows the statement
silently matches nothing. -/
def Update (s : DBState) (a : ACMETxtPost) (timenow : Nat) : DBState :=
  match oldestRowid (s.txt.filter fun r => r.Subdomain == a.Subdomain) with
  | none => s
  | some rid =>
      { s with txt := s.txt.map fun r =>
          if r.rowid == rid then { r with Value := a.Value, LastUpdate := timenow } else r }

/-- A row of minimal `LastUpdate` among `rows`. -/
def IsOldest (rows : List TxtRow) (r : TxtRow) : Prop :=
  r ∈ rows ∧ ∀ x ∈ rows, r.LastUpdate ≤ x.LastUpdate

/-- All outcomes the SQL standard permits for the `UPDATE` statement of
`acmedb.Update`: `ORDER BY LastUpdate LIMIT 1` may surface any row with
minimal `LastUpdate`, as the query orders by no further column. -/
def UpdateRel (s : DBState) (a : ACMETxtPost) (timenow : Nat) (s' : DBState) : Prop :=
  (∃ r, IsOldest (s.txt.filter fun x => x.Subdomain == a.Subdomain) r ∧
      s' = { s with txt := s.txt.map fun x =>
          if x.rowid == r.rowid then { x with Value := a.Value, LastUpdate := timenow } else x }) ∨
  ((s.txt.filter fun x => x.Subdomain == a.Subdomain) = [] ∧ s' = s)

/-! ## pkg/dns: the responder -/

/-- A resource record; `Rdata` carries the text of a TXT record. -/
structure RR where
  Name : String
  Rrtype : Nat
  Ttl : Nat
  Rdata : String
deriving DecidableEq

def TypeTXT : Nat := 16
def TypeCNAME : Nat := 5
def RcodeSuccess : Nat := 0
def RcodeNameError : Nat := 3

/-- A DNS question. -/
structure Question where
  Name : String
  Qtype : Nat
deriving DecidableEq

/-- The responder state: `Domain` is lowercased with a trailing dot by
`NewDNSServer`; `Domains` is the static zone map. -/
structure DNSServer where
  DB : DBState
  Domain : String
  SOA : RR
  PersonalKeyAuth : String
  Domains : List (String × List RR)
deriving DecidableEq

/-- Lookup in the static zone map. -/
def lookupDomain (d : DNSServer) (name : String) : Option (List RR) :=
  d.Domains.lookup name

/-- `dnsserver.sanitizeDomainQuestion`: lowercase, then keep everything
before the first dot when that dot is not the leading character. -/
def sanitizeDomainQuestion (s : String) : String :=
  let dom := toLowerS s
  match s.data.findIdx? (fun c => c == '.') with
  | some i => if 0 < i then String.mk (dom.data.take i) else dom
  | none => dom

/-- `DNSServer.getRecord`: records of the queried type at the exact
owner name, with CNAMEs as fallback when no type matches.  The source
signals a missing name with an error that its only caller discards,
keeping the empty slice. -/
def getRecord (d : DNSServer) (q : Question) : List RR :=
  match lookupDomain d (toLowerS q.Name) with
  | none => []
  | some recs =>
      let rr := recs.filter fun ri => ri.Rrtype == q.Qtype
      let cnames := recs.filter fun ri => ri.Rrtype == TypeCNAME
      if rr.isEmpty then cnames else rr

/-- `DNSServer.answeringForDomain`: the configured domain itself or any
name with static records. -/
def answeringForDomain (d : DNSServer) (name : String) : Bool :=
  if d.Domain == toLowerS name then true
  else (lookupDomain d (toLowerS name)).isSome

/-- `strings.Split(s, ".")`: the dot-separated fields (an executable
model of the Go standard library function for a one-character
separator). -/
def splitOnDot : List Char → List (List Char)
  | [] => [[]]
  | c :: rest =>
      if c = '.' then [] :: splitOnDot rest
      else
        match splitOnDot rest with
        | [] => [[c]]
        | p :: ps => (c :: p) :: ps

/-- `strings.Join(parts, ".")`. -/
def joinDots : List (List Char) → List Char
  | [] => []
  | [p] => p
  | p :: ps => p ++ '.' :: joinDots ps

/-- `DNSServer.isAuthoritative`: the name itself or any label suffix of
it is a name we answer for. -/
def isAuthoritative (d : DNSServer) (q : Question) : Bool :=
  if answeringForDomain d q.Name then true
  else
    let domainParts := splitOnDot (toLowerS q.Name).data
    (List.range domainParts.length).any fun i =>
      answeringForDomain d (String.mk (joinDots (domainParts.drop i)))

/-- `DNSServer.isOwnChallenge`: `strings.SplitN(name, ".", 2)`, then the
first part must be `_acme-challenge` (lowercased) and the rest,
lowercased and given a trailing dot when it lacks one, must equal the
server domain. -/
def isOwnChallenge (d : DNSServer) (name : String) : Bool :=
  let cs := name.data
  let before := cs.takeWhile (fun c => c != '.')
  let after := cs.dropWhile (fun c => c != '.')
  match after with
  | [] => false
  | _ :: rest =>
      if toLowerL before == "_acme-challenge".data then
        let domain := toLowerL rest
        let domain := if domain.getLast? == some '.' then domain else domain ++ ['.']
        String.mk domain == d.Domain
      else false

/-- `DNSServer.answerTXT`: one TXT record (TTL 1) per non-empty stored
value for the first label of the queried name. -/
def answerTXT (d : DNSServer) (q : Question) : List RR :=
  let subdomain := sanitizeDomainQuestion q.Name
  let atxt := GetTXTForDomain d.DB subdomain
  (atxt.filter fun v => 0 < v.length).map fun v => ⟨q.Name, TypeTXT, 1, v⟩

/-- The spec's `GetChallengeValues`: the non-empty challenge values a
TXT query observes, i.e. `GetTXTForDomain` composed with the
`len(v) > 0` filter of its only reader `answerTXT`. -/
def GetChallengeValues (s : DBState) (domain : String) : List String :=
  (GetTXTForDomain s domain).filter fun v => 0 < v.length

/-- `DNSServer.answerOwnChallenge`: one TXT record carrying
`PersonalKeyAuth`. -/
def answerOwnChallenge (d : DNSServer) (q : Question) : List RR :=
  [⟨q.Name, TypeTXT, 1, d.PersonalKeyAuth⟩]

/-- `DNSServer.answer` for one question: answer records, response code
and the authoritative flag.  (`answer` always reports a nil error: the
only fallible callee is `answerTXT`, whose failure leaves the dynamic
records empty in this model of a reachable store.) -/
def answer (d : DNSServer) (q : Question) : List RR × Nat × Bool :=
  let authoritative := isAuthoritative d q
  let rcode := if !isOwnChallenge d q.Name && !answeringForDomain d q.Name
    then RcodeNameError else RcodeSuccess
  let r := getRecord d q
  let r := if q.Qtype == TypeTXT then
      (if isOwnChallenge d q.Name then r ++ answerOwnChallenge d q
       else r ++ answerTXT d q)
    else r
  let rcode := if 0 < r.length then RcodeSuccess else rcode
  (r, rcode, authoritative)

/-- The reply assembled by `readQuery`. -/
structure DNSReply where
  Answer : List RR
  Rcode : Nat
  Authoritative : Bool
  Ns : List RR
deriving DecidableEq

/-- `DNSServer.readQuery`: process every question (the per-question
error is always nil), overwriting the response code each time and
or-ing the authoritative flags; an authoritative reply still carrying
the name-error code gets the SOA in its authority section. -/
def readQuery (d : DNSServer) (qs : List Question) : DNSReply :=
  let step := qs.foldl
    (fun (acc : List RR × Nat × Bool) q =>
      (acc.1 ++ (answer d q).1, (answer d q).2.1, acc.2.2 || (answer d q).2.2))
    ([], RcodeSuccess, false)
  { Answer := step.1
    Rcode := step.2.1
    Authoritative := step.2.2
    Ns := if step.2.2 then
        (if step.2.1 == RcodeNameError then [d.SOA] else [])
      else [] }

/-! ## pkg/api: validation and the authentication middleware -/

/-- A hexadecimal digit. -/
def isHexDigit (c : Char) : Bool :=
  (decide ('0' ≤ c) && decide (c ≤ '9')) ||
  (decide ('a' ≤ c) && decide (c ≤ 'f')) ||
  (decide ('A' ≤ c) && decide (c ≤ 'F'))

/-- `api.getValidUsername`, i.e. `uuid.Parse` followed by
`uuid.UUID.String`.  The external library is modelled on the canonical
8-4-4-4-12 textual form, the only form this system ever emits: the
parse succeeds exactly on 36-character strings with dashes at positions
8, 13, 18 and 23 and hex digits elsewhere, and the round-trip through
the parsed value lowercases the string. -/
def getValidUsername (u : String) : Option String :=
  let cs := u.data
  if cs.length == 36 &&
      (List.range 36).all (fun i =>
        if i = 8 || i = 13 || i = 18 || i = 23 then cs.getD i 'x' == '-'
        else isHexDigit (cs.getD i 'x'))
  then some (toLowerS u) else none

/-- The hard-coded placeholder hash compared against when the username
lookup fails. -/
def placeholderHash : String :=
  "$2a$10$8JEFVNYYhLoBysjAxe2yBuXrkDojBQBkVpXEQgyQyjn43SvJ4vL36"

/-- `main.jsonError`: the generic JSON error body. -/
def jsonError (message : String) : String :=
  "\x7b\"error\": \"" ++ message ++ "\"\x7d"

/-- The API configuration bits the middleware reads. -/
structure APIConfig where
  UseHeader : Bool
deriving DecidableEq

/-- One update request as the middleware sees it.  `remoteIP` is the
parsed peer address (`none` when `net.SplitHostPort` fails, in which
case the source continues with the empty host, i.e. the nil IP);
`headerIPs` are the parsed entries of the forwarding header; `body` is
the decoded JSON body (`none` models a decode failure, which is only
logged and leaves the zero value in place). -/
structure AuthRequest where
  apiUser : String
  apiKey : String
  remoteIP : Option IP
  headerIPs : List IP
  body : Option ACMETxtPost
deriving DecidableEq

/-- The decoded body of the request: a decode failure leaves the zero
value of `ACMETxtPost`. -/
def decodedPost (r : AuthRequest) : ACMETxtPost :=
  match r.body with
  | some p => p
  | none => ⟨"", ""⟩

/-- `authMiddleware.getUserFromRequest`, instrumented: `bcrypt pw hash`
stands for `db.CorrectPassword`; alongside the resolved user the model
returns the list of (password, hash) pairs handed to bcrypt, so that
the number of secret-verification computations is part of the state. -/
def getUserFromRequest (bcrypt : String → String → Bool) (s : DBState)
    (r : AuthRequest) : Option ACMETxt × List (String × String) :=
  match getValidUsername r.apiUser with
  | none => (none, [])
  | some username =>
      if validKey r.apiKey then
        match GetByUsername s username with
        | none =>
            -- To protect against timed side channel: always compare
            -- against the placeholder hash before rejecting.
            (none, [(r.apiKey, placeholderHash)])
        | some dbuser =>
            if bcrypt r.apiKey dbuser.Password then
              (some dbuser, [(r.apiKey, dbuser.Password)])
            else (none, [(r.apiKey, dbuser.Password)])
      else (none, [])

/-- `authMiddleware.updateAllowedFromIP`: with the trusted-header mode
the parsed header list is checked, otherwise the peer address. -/
def updateAllowedFromIP (cfg : APIConfig) (r : AuthRequest) (user : ACMETxt) : Bool :=
  if cfg.UseHeader then user.IsAllowedFromList r.headerIPs
  else user.IsAllowedFrom (r.remoteIP.getD nilIP)

/-- The middleware's outcome: hand the authenticated data to the update
handler, or write a response itself. -/
inductive AuthOutcome where
  | next (postData : ACMETxt)
  | reject (status : Nat) (body : String)
deriving DecidableEq

/-- `authMiddleware.ServeHTTP`: resolve the user, check the network,
decode the body, require the body's subdomain to equal the user's; on
full success pass the enriched post data on, otherwise write the one
generic 401 response. -/
def authServeHTTP (bcrypt : String → String → Bool) (cfg : APIConfig)
    (s : DBState) (r : AuthRequest) : AuthOutcome :=
  let postData : ACMETxt := ⟨"", "", (decodedPost r).Subdomain, (decodedPost r).Value, []⟩
  match (getUserFromRequest bcrypt s r).1 with
  | some user =>
      if updateAllowedFromIP cfg r user then
        if user.Subdomain == postData.Subdomain then
          AuthOutcome.next { postData with Username := user.Username, Password := user.Password }
        else AuthOutcome.reject 401 (jsonError "forbidden")
      else AuthOutcome.reject 401 (jsonError "forbidden")
  | none => AuthOutcome.reject 401 (jsonError "forbidden")

/-! ## Concrete fixtures used by the closed witness theorems -/

/-- The network 10.0.0.0/24. -/
def netTen : IPNet := ⟨[10, 0, 0, 0], [255, 255, 255, 0]⟩

/-- The address 10.0.0.5. -/
def ipTen : IP := [10, 0, 0, 5]

/-- A user whose allow-list is exactly 10.0.0.0/24. -/
def userTen : ACMETxt := ⟨"u", "p", "s", "", [netTen]⟩

/-- A store holding one freshly registered subdomain `sub`: two slot
rows with empty value and zero timestamp. -/
def dbFresh : DBState := ⟨[], [⟨1, "sub", "", 0⟩, ⟨2, "sub", "", 0⟩], 3⟩

/-- An update request body for `sub`. -/
def postSub : ACMETxtPost := ⟨"sub", "v1"⟩

/-- The outcome of the first update when the tie breaks to the first
slot row. -/
def dbTieA : DBState := ⟨[], [⟨1, "sub", "v1", 5⟩, ⟨2, "sub", "", 0⟩], 3⟩

/-- The outcome of the first update when the tie breaks to the second
slot row. -/
def dbTieB : DBState := ⟨[], [⟨1, "sub", "", 0⟩, ⟨2, "sub", "v1", 5⟩], 3⟩

/-- The empty store. -/
def dbEmpty : DBState := ⟨[], [], 1⟩

/-- A registration candidate as generated by `model.NewACMETxt`. -/
def regUser : ACMETxt :=
  ⟨"5ad954a8-b779-4292-aecf-a50e2ba5d0f5", "pw", "7d2e5e75-e6a1-4cf8-a6fd-b71a69b27db7", "", []⟩

/-- A responder for `auth.example.org` with an empty static zone map
and a freshly registered subdomain in its store. -/
def srvW : DNSServer :=
  ⟨dbFresh, "auth.example.org.", ⟨"auth.example.org.", 6, 0, "soa"⟩, "pka", []⟩

/-- A TXT question for the responder's own challenge name. -/
def qOwnW : Question := ⟨"_ACME-Challenge.AUTH.example.org", TypeTXT⟩

/-- A TXT question for a name outside the responder's zone. -/
def qUnrelatedW : Question := ⟨"unrelated.example.com.", TypeTXT⟩

/-- A bcrypt oracle that rejects every pair (the comparison outcome is
irrelevant to the counting claims). -/
def bcryptNever : String → String → Bool := fun _ _ => false

/-- A valid 40-character API key. -/
def keyW : String := "aaaaaaaaaaaaaaaaaaaaaaaaaaaaaaaaaaaaaaaa"

/-- An update request with well-formed credentials that resolve to no
stored identity. -/
def reqW : AuthRequest :=
  ⟨"C36F7EA2-2587-47F2-B63C-FB3E8F7276C2", keyW, none, [], none⟩

/-- The store after the first update wrote `v1` into the first slot. -/
def dbC1s1 : DBState := ⟨[], [⟨1, "sub", "v1", 10⟩, ⟨2, "sub", "", 0⟩], 3⟩

/-- The store after the second update wrote `v2` into the second slot. -/
def dbC1s2 : DBState := ⟨[], [⟨1, "sub", "v1", 10⟩, ⟨2, "sub", "v2", 20⟩], 3⟩

/-- The store after the third update overwrote the oldest slot with `v3`. -/
def dbC1s3 : DBState := ⟨[], [⟨1, "sub", "v3", 30⟩, ⟨2, "sub", "v2", 20⟩], 3⟩

/-! ## Helper lemmas -/

theorem isB64UrlChar_b64Char (n : Nat) : isB64UrlChar (b64Char n) = true := by
  by_cases h : n < 64
  · have hall : ∀ m < 64, isB64UrlChar (b64Char m) = true := by decide
    exact hall n h
  · have hlen : b64Alphabet.length ≤ n := by
      have : b64Alphabet.length = 64 := by decide
      omega
    unfold b64Char
    rw [List.getD_eq_default _ _ hlen]
    decide

theorem base64URLEncode_spec :
    ∀ (k : Nat) (bs : List Nat), bs.length = 3 * k →
      (base64URLEncode bs).length = 4 * k ∧
      ∀ c ∈ base64URLEncode bs, isB64UrlChar c = true := by
  intro k
  induction k with
  | zero =>
      intro bs h
      have hb : bs = [] := List.eq_nil_of_length_eq_zero (by omega)
      subst hb
      refine ⟨by simp [base64URLEncode], by simp [base64URLEncode]⟩
  | succ n ih =>
      intro bs h
      match bs with
      | [] => simp at h
      | [b1] => simp at h; omega
      | [b1, b2] => simp at h; omega
      | b1 :: b2 :: b3 :: rest =>
          have hr : rest.length = 3 * n := by
            simp at h; omega
          obtain ⟨ih1, ih2⟩ := ih rest hr
          constructor
          · simp [base64URLEncode, ih1]; omega
          · intro c hc
            simp only [base64URLEncode, List.mem_cons] at hc
            rcases hc with h1 | h1 | h1 | h1 | h1
            · exact h1 ▸ isB64UrlChar_b64Char _
            · exact h1 ▸ isB64UrlChar_b64Char _
            · exact h1 ▸ isB64UrlChar_b64Char _
            · exact h1 ▸ isB64UrlChar_b64Char _
            · exact ih2 c h1

/-! ## The claims -/

/-- C10: every secret produced by a successful registration is the
URL-safe base64 encoding of the 30 random bytes, hence exactly 40
characters, all from the URL-safe alphabet, with no `=` padding; such a
secret passes the auth gate's `validKey` check. -/
theorem register_secret_validKey (bs : List Nat) (h : bs.length = 30) :
    (generatePassword bs).data.length = 40 ∧
    (∀ c ∈ (generatePassword bs).data, isB64UrlChar c = true) ∧
    '=' ∉ (generatePassword bs).data ∧
    validKey (generatePassword bs) = true := by
  have h3 : bs.length = 3 * 10 := by omega
  obtain ⟨hlen, hmem⟩ := base64URLEncode_spec 10 bs h3
  have hdata : (generatePassword bs).data = base64URLEncode bs := rfl
  have hlen40 : (generatePassword bs).data.length = 40 := by
    rw [hdata, hlen]
  have hmem40 : ∀ c ∈ (generatePassword bs).data, isB64UrlChar c = true := by
    rw [hdata]; exact hmem
  refine ⟨hlen40, hmem40, ?_, ?_⟩
  · intro hc
    have := hmem40 _ hc
    simp [isB64UrlChar] at this
  · unfold validKey SanitizeString
    have hfilter : (generatePassword bs).data.filter isB64UrlChar = (generatePassword bs).data :=
      List.filter_eq_self.mpr hmem40
    rw [if_pos]
    exact ⟨hlen40, by simpa [hfilter] using hlen40⟩

theorem register_secret_validKey_witness :
    (generatePassword (List.replicate 30 0)).data.length = 40 ∧
    validKey (generatePassword (List.replicate 30 0)) = true :=
  have h := register_secret_validKey (List.replicate 30 0) (by simp)
  ⟨h.1, h.2.2.2⟩

/-- C9: `CIDRSlice.Contains` (the middleware's `IsAllowedFrom`) permits
everything under an empty allow-list and otherwise exactly the
addresses matching some listed network; `CIDRSlice.ContainsAny` (the
middleware's `IsAllowedFromList`) with no candidates permits exactly
when the allow-list is empty, and with candidates exactly when some
candidate is permitted. -/
theorem allowlist_permit_spec (c : CIDRSlice) (x : IP) (xs : List IP)
    (a : ACMETxt) (y : IP) (ys : List IP) :
    (c = [] → CIDRSlice.Contains c x = true) ∧
    (c ≠ [] → (CIDRSlice.Contains c x = true ↔ ∃ n ∈ c, n.Contains x = true)) ∧
    (CIDRSlice.ContainsAny c [] = true ↔ c = []) ∧
    (xs ≠ [] → (CIDRSlice.ContainsAny c xs = true ↔ ∃ z ∈ xs, CIDRSlice.Contains c z = true)) ∧
    (a.AllowFrom = [] → a.IsAllowedFrom y = true) ∧
    (a.AllowFrom ≠ [] → (a.IsAllowedFrom y = true ↔ ∃ n ∈ a.AllowFrom, n.Contains y = true)) ∧
    ((∀ n ∈ a.AllowFrom, n.ip ≠ []) → (a.IsAllowedFromList [] = true ↔ a.AllowFrom = [])) ∧
    (ys ≠ [] → (a.IsAllowedFromList ys = true ↔ ∃ z ∈ ys, a.IsAllowedFrom z = true)) := by
  refine ⟨?_, ?_, ?_, ?_, ?_, ?_, ?_, ?_⟩
  · intro hc; simp [CIDRSlice.Contains, hc]
  · intro hc
    simp [CIDRSlice.Contains, List.isEmpty_iff, hc, List.any_eq_true]
  · simp [CIDRSlice.ContainsAny, List.isEmpty_iff]
  · intro hxs
    simp [CIDRSlice.ContainsAny, List.isEmpty_iff, hxs, List.any_eq_true]
  · intro ha; simp [ACMETxt.IsAllowedFrom, ha]
  · intro ha
    simp [ACMETxt.IsAllowedFrom, List.isEmpty_iff, ha, List.any_eq_true]
  · intro hwf
    simp only [ACMETxt.IsAllowedFromList, List.isEmpty_nil, if_true]
    unfold ACMETxt.IsAllowedFrom
    by_cases ha : a.AllowFrom.isEmpty
    · simp [ha, List.isEmpty_iff.mp ha]
    · have ha' : a.AllowFrom ≠ [] := by simpa [List.isEmpty_iff] using ha
      rw [if_neg ha]
      simp only [List.any_eq_true]
      constructor
      · rintro ⟨n, hn, hcont⟩
        exfalso
        have hip : n.ip ≠ [] := hwf n hn
        unfold IPNet.Contains at hcont
        rw [if_neg] at hcont
        · exact Bool.false_ne_true hcont
        · rintro ⟨h1, h2⟩
          exact hip (List.eq_nil_of_length_eq_zero (by simpa [nilIP] using h1.symm))
      · intro h
        exact absurd h ha'
  · intro hys
    have hys' : ys.isEmpty = false := by simpa [List.isEmpty_iff] using hys
    simp [ACMETxt.IsAllowedFromList, hys', List.any_eq_true]

theorem allowlist_permit_spec_witness :
    CIDRSlice.Contains [netTen] ipTen = true ∧
    CIDRSlice.ContainsAny [netTen] [ipTen] = true :=
  ⟨((allowlist_permit_spec [netTen] ipTen [ipTen] userTen ipTen [ipTen]).2.1
      (by decide)).mpr ⟨netTen, by decide, by decide⟩,
   ((allowlist_permit_spec [netTen] ipTen [ipTen] userTen ipTen [ipTen]).2.2.2.1
      (by decide)).mpr ⟨ipTen, by decide, by decide⟩⟩

/-- C2, evaluation at the failing input: when the `records` insert
succeeds but both slot inserts of `NewTXTValuesInTransaction` fail,
`Register` still reports success and commits a credential row with zero
TXT slot rows — the slot-insert errors are discarded by the source
(`var err error; _, _ = tx.Exec(instr); ... return err`), so the claim's
all-or-nothing property does not hold. -/
theorem register_slot_insert_failure_partial_commit :
    (Register dbEmpty regUser "hash" true false false).1 = some regUser ∧
    (Register dbEmpty regUser "hash" true false false).2.records =
      [⟨regUser.Username, "hash", regUser.Subdomain, []⟩] ∧
    (Register dbEmpty regUser "hash" true false false).2.txt = [] :=
  ⟨rfl, rfl, rfl⟩

theorem foldl_min_spec (r : TxtRow) (rs : List TxtRow) :
    (rs.foldl (fun b x => if x.LastUpdate < b.LastUpdate then x else b) r) ∈ r :: rs ∧
    ∀ x ∈ r :: rs,
      (rs.foldl (fun b x => if x.LastUpdate < b.LastUpdate then x else b) r).LastUpdate ≤
        x.LastUpdate := by
  induction rs generalizing r with
  | nil => simp
  | cons y ys ih =>
      simp only [List.foldl_cons]
      obtain ⟨ihmem, ihmin⟩ := ih (if y.LastUpdate < r.LastUpdate then y else r)
      have hfr : (if y.LastUpdate < r.LastUpdate then y else r) = y ∨
          (if y.LastUpdate < r.LastUpdate then y else r) = r := by
        split
        · exact Or.inl rfl
        · exact Or.inr rfl
      have hle_r : (if y.LastUpdate < r.LastUpdate then y else r).LastUpdate ≤
          r.LastUpdate := by
        split <;> omega
      have hle_y : (if y.LastUpdate < r.LastUpdate then y else r).LastUpdate ≤
          y.LastUpdate := by
        split <;> omega
      have hmin0 := ihmin _ (List.mem_cons_self _ _)
      constructor
      · rcases List.mem_cons.mp ihmem with h | h
        · rcases hfr with h2 | h2 <;> rw [h, h2] <;> simp
        · simp [h]
      · intro z hz
        rcases List.mem_cons.mp hz with hz | hz
        · subst hz; omega
        · rcases List.mem_cons.mp hz with hz | hz
          · subst hz; omega
          · exact ihmin _ (List.mem_cons_of_mem _ hz)

/-- C3 amended: the executed update statement always overwrites a slot
row of minimal `LastUpdate` (under the backend scan order it is the
earliest such row), i.e. the function `Update` is one of the outcomes
the SQL permits. -/
theorem update_refines_updateRel (s : DBState) (a : ACMETxtPost) (t : Nat) :
    UpdateRel s a t (Update s a t) := by
  unfold Update
  cases hf : s.txt.filter (fun r => r.Subdomain == a.Subdomain) with
  | nil =>
      exact Or.inr ⟨hf, rfl⟩
  | cons r rs =>
      apply Or.inl
      refine ⟨rs.foldl (fun b x => if x.LastUpdate < b.LastUpdate then x else b) r, ?_, ?_⟩
      · rw [hf]
        exact ⟨(foldl_min_spec r rs).1, (foldl_min_spec r rs).2⟩
      · rfl

theorem update_overwrites_oldest (s : DBState) (a : ACMETxtPost) (t : Nat) :
    UpdateRel s a t (Update s a t) :=
  update_refines_updateRel s a t

/-- C3, counterexample: immediately after registration both slot rows
carry the same timestamp, and the SQL `ORDER BY LastUpdate LIMIT 1`
(with no further ordering column) may surface either row: two distinct
store states are both legal outcomes of the same update, so the source
does not fix a deterministic slot under a tie. -/
theorem update_tie_two_outcomes :
    UpdateRel dbFresh postSub 5 dbTieA ∧ UpdateRel dbFresh postSub 5 dbTieB ∧
      dbTieA ≠ dbTieB := by
  refine ⟨Or.inl ⟨⟨1, "sub", "", 0⟩, ⟨by decide, by decide⟩, by decide⟩,
    Or.inl ⟨⟨2, "sub", "", 0⟩, ⟨by decide, by decide⟩, by decide⟩, by decide⟩

/-- C4: reading the challenge values of a subdomain never fails — an
unknown subdomain yields the empty list — and the result (the values a
TXT query observes, after `answerTXT`'s non-empty filter) has at most
two entries, none of them empty; as a function of the store state it is
deterministic. -/
theorem getChallengeValues_spec (s : DBState) (domain : String) :
    ((s.txt.filter fun r => r.Subdomain == SanitizeString domain) = [] →
      GetChallengeValues s domain = []) ∧
    (GetChallengeValues s domain).length ≤ 2 ∧
    ∀ v ∈ GetChallengeValues s domain, v ≠ "" := by
  refine ⟨?_, ?_, ?_⟩
  · intro h
    simp only [GetChallengeValues, GetTXTForDomain]
    rw [h]
    rfl
  · have h1 : (GetChallengeValues s domain).length ≤ (GetTXTForDomain s domain).length :=
      List.length_filter_le _ _
    have h2 : (GetTXTForDomain s domain).length ≤ 2 := by
      unfold GetTXTForDomain
      simp [List.length_take]
    omega
  · intro v hv
    have h1 := (List.mem_filter.mp hv).2
    intro hv0
    subst hv0
    simp at h1

/-- C7: once a request carries a syntactically valid identity and key,
exactly one bcrypt comparison is performed whether or not the identity
resolves, and the unknown-identity path compares the supplied secret
against the fixed placeholder hash before rejecting. -/
theorem auth_single_bcrypt_comparison (bcrypt : String → String → Bool) (s : DBState)
    (r : AuthRequest) (u : String)
    (hu : getValidUsername r.apiUser = some u) (hk : validKey r.apiKey = true) :
    (getUserFromRequest bcrypt s r).2.length = 1 ∧
    (GetByUsername s u = none →
      (getUserFromRequest bcrypt s r).2 = [(r.apiKey, placeholderHash)]) := by
  unfold getUserFromRequest
  rw [hu]
  simp only [hk, if_true]
  cases hby : GetByUsername s u with
  | none => simp
  | some dbuser =>
      constructor
      · cases hb : bcrypt r.apiKey dbuser.Password <;> simp [hb]
      · intro hnone
        simp at hnone
theorem auth_single_bcrypt_comparison_witness :
    (getUserFromRequest bcryptNever dbEmpty reqW).2.length = 1 ∧
    (getUserFromRequest bcryptNever dbEmpty reqW).2 = [(reqW.apiKey, placeholderHash)] :=
  have h := auth_single_bcrypt_comparison bcryptNever dbEmpty reqW
    "c36f7ea2-2587-47f2-b63c-fb3e8f7276c2" (by decide) (by decide)
  ⟨h.1, h.2 (by decide)⟩

/-- C8: every rejection of the auth gate — malformed identity header,
malformed key, unknown identity, wrong secret, source address not
allowed, or body subdomain differing from the identity's — produces the
same response: status 401 with the generic forbidden body. -/
theorem auth_reject_uniform_response (bcrypt : String → String → Bool) (cfg : APIConfig)
    (s : DBState) (r : AuthRequest) :
    (∀ st b, authServeHTTP bcrypt cfg s r = AuthOutcome.reject st b →
      st = 401 ∧ b = jsonError "forbidden") ∧
    (getValidUsername r.apiUser = none →
      authServeHTTP bcrypt cfg s r = AuthOutcome.reject 401 (jsonError "forbidden")) ∧
    (validKey r.apiKey = false →
      authServeHTTP bcrypt cfg s r = AuthOutcome.reject 401 (jsonError "forbidden")) ∧
    (∀ u, getValidUsername r.apiUser = some u → GetByUsername s u = none →
      authServeHTTP bcrypt cfg s r = AuthOutcome.reject 401 (jsonError "forbidden")) ∧
    (∀ u usr, getValidUsername r.apiUser = some u → GetByUsername s u = some usr →
      bcrypt r.apiKey usr.Password = false →
      authServeHTTP bcrypt cfg s r = AuthOutcome.reject 401 (jsonError "forbidden")) ∧
    (∀ user, (getUserFromRequest bcrypt s r).1 = some user →
      updateAllowedFromIP cfg r user = false →
      authServeHTTP bcrypt cfg s r = AuthOutcome.reject 401 (jsonError "forbidden")) ∧
    (∀ user, (getUserFromRequest bcrypt s r).1 = some user →
      updateAllowedFromIP cfg r user = true →
      user.Subdomain ≠ (decodedPost r).Subdomain →
      authServeHTTP bcrypt cfg s r = AuthOutcome.reject 401 (jsonError "forbidden")) := by
  refine ⟨?_, ?_, ?_, ?_, ?_, ?_, ?_⟩
  · intro st b h
    unfold authServeHTTP at h
    split at h
    · split at h
      · dsimp only at h
        split at h
        · simp at h
        · simp at h
          exact ⟨h.1.symm, h.2.symm⟩
      · simp at h
        exact ⟨h.1.symm, h.2.symm⟩
    · simp at h
      exact ⟨h.1.symm, h.2.symm⟩
  · intro h0
    simp [authServeHTTP, getUserFromRequest, h0]
  · intro h0
    cases hvu : getValidUsername r.apiUser with
    | none => simp [authServeHTTP, getUserFromRequest, hvu]
    | some u => simp [authServeHTTP, getUserFromRequest, hvu, h0]
  · intro u hu hnone
    by_cases hk : validKey r.apiKey <;>
      simp [authServeHTTP, getUserFromRequest, hu, hnone, hk]
  · intro u usr hu hsome hb
    by_cases hk : validKey r.apiKey <;>
      simp [authServeHTTP, getUserFromRequest, hu, hsome, hb, hk]
  · intro user hg h1
    simp [authServeHTTP, hg, h1]
  · intro user hg h1 h2
    simp [authServeHTTP, hg, h1, h2]
theorem auth_reject_uniform_response_witness :
    authServeHTTP bcryptNever ⟨false⟩ dbEmpty reqW =
      AuthOutcome.reject 401 (jsonError "forbidden") :=
  (auth_reject_uniform_response bcryptNever ⟨false⟩ dbEmpty reqW).2.2.2.1
    "c36f7ea2-2587-47f2-b63c-fb3e8f7276c2" (by decide) (by decide)

theorem readQuery_foldl_auth (d : DNSServer) (qs : List Question)
    (acc : List RR × Nat × Bool) :
    (qs.foldl
      (fun (acc : List RR × Nat × Bool) q =>
        (acc.1 ++ (answer d q).1, (answer d q).2.1, acc.2.2 || (answer d q).2.2))
      acc).2.2 = (acc.2.2 || qs.any fun q => (answer d q).2.2) := by
  induction qs generalizing acc with
  | nil => simp
  | cons q qs ih => simp [List.foldl_cons, ih, Bool.or_assoc]

theorem answer_auth_eq (d : DNSServer) (q : Question) :
    (answer d q).2.2 = isAuthoritative d q := rfl

theorem answeringForDomain_false_lookup (d : DNSServer) (name : String)
    (h : answeringForDomain d name = false) :
    lookupDomain d (toLowerS name) = none := by
  unfold answeringForDomain at h
  split at h
  · cases h
  · exact Option.not_isSome_iff_eq_none.mp (by simp [h])

theorem isAuthoritative_false_answering (d : DNSServer) (q : Question)
    (h : isAuthoritative d q = false) :
    answeringForDomain d q.Name = false := by
  cases hx : answeringForDomain d q.Name
  · rfl
  · exfalso
    have hT : isAuthoritative d q = true := by
      unfold isAuthoritative
      rw [hx]
      simp
    rw [hT] at h
    cases h

theorem answer_unrelated (d : DNSServer) (q : Question)
    (hq1 : isAuthoritative d q = false)
    (hq2 : isOwnChallenge d q.Name = false)
    (hq3 : q.Qtype = TypeTXT → GetChallengeValues d.DB (sanitizeDomainQuestion q.Name) = []) :
    answer d q = ([], RcodeNameError, false) := by
  have hafd : answeringForDomain d q.Name = false := isAuthoritative_false_answering d q hq1
  have hlook : lookupDomain d (toLowerS q.Name) = none :=
    answeringForDomain_false_lookup d q.Name hafd
  have hrec : getRecord d q = [] := by
    unfold getRecord
    rw [hlook]
  unfold answer
  rw [hq1, hq2, hafd, hrec]
  by_cases hT : q.Qtype = TypeTXT
  · have htxt : answerTXT d q = [] := by
      unfold answerTXT
      dsimp only
      have := hq3 hT
      unfold GetChallengeValues at this
      rw [this]
      rfl
    simp [hT, hq2, htxt]
  · have hT2 : (q.Qtype == TypeTXT) = false := by
      simpa using hT
    simp [hT2]

/-- C6: the assembled reply is authoritative exactly when some question
resolved authoritative; an authoritative reply whose final code is
name-error gets the synthesized SOA in its authority section; and a
single query for an unrelated name (not authoritative, not the own
challenge, no stored values for its first label) yields name-error with
the authoritative flag unset and no SOA attached. -/
theorem readQuery_authoritative_soa (d : DNSServer) (qs : List Question) (q : Question)
    (hq1 : isAuthoritative d q = false)
    (hq2 : isOwnChallenge d q.Name = false)
    (hq3 : q.Qtype = TypeTXT → GetChallengeValues d.DB (sanitizeDomainQuestion q.Name) = []) :
    ((readQuery d qs).Authoritative = qs.any fun p => isAuthoritative d p) ∧
    ((readQuery d qs).Authoritative = true → (readQuery d qs).Rcode = RcodeNameError →
      (readQuery d qs).Ns = [d.SOA]) ∧
    ((readQuery d [q]).Rcode = RcodeNameError ∧ (readQuery d [q]).Authoritative = false ∧
      (readQuery d [q]).Ns = []) := by
  have hans : answer d q = ([], RcodeNameError, false) := answer_unrelated d q hq1 hq2 hq3
  refine ⟨?_, ?_, ?_⟩
  · simp only [readQuery]
    rw [readQuery_foldl_auth]
    simp [answer_auth_eq]
  · intro h1 h2
    simp only [readQuery] at h1 h2 ⊢
    rw [h1, h2]
    simp [RcodeNameError]
  · simp [readQuery, hans, RcodeNameError, RcodeSuccess]

theorem readQuery_authoritative_soa_witness :
    (readQuery srvW [qUnrelatedW]).Rcode = RcodeNameError ∧
    (readQuery srvW [qUnrelatedW]).Authoritative = false ∧
    (readQuery srvW [qUnrelatedW]).Ns = [] :=
  (readQuery_authoritative_soa srvW [qUnrelatedW] qUnrelatedW
    (by decide) (by decide) (fun _ => by decide)).2.2

theorem toNat_ofNat_valid (m : Nat) (h : m.isValidChar) : (Char.ofNat m).toNat = m := by
  unfold Char.ofNat
  rw [dif_pos h]
  unfold Char.ofNatAux
  simp [Char.toNat, UInt32.toNat]

theorem eq_dot_of_toLower_eq_dot {c : Char} (h : Char.toLower c = '.') : c = '.' := by
  unfold Char.toLower at h
  dsimp only at h
  split at h
  · exfalso
    rename_i hc
    have h46 : (Char.ofNat (c.toNat + 32)).toNat = ('.' : Char).toNat := by rw [h]
    have hval : (c.toNat + 32).isValidChar := Or.inl (by omega)
    rw [toNat_ofNat_valid _ hval] at h46
    have hd : ('.' : Char).toNat = 46 := by decide
    omega
  · exact h

theorem takeWhile_dropWhile_append_cons {p : Char → Bool} (A : List Char) (c : Char)
    (B : List Char) (hA : ∀ x ∈ A, p x = true) (hc : p c = false) :
    (A ++ c :: B).takeWhile p = A ∧ (A ++ c :: B).dropWhile p = c :: B := by
  induction A with
  | nil => simp [List.takeWhile_cons, List.dropWhile_cons, hc]
  | cons a A ih =>
      have ha : p a = true := hA a (List.mem_cons_self _ _)
      have ihr := ih fun x hx => hA x (List.mem_cons_of_mem _ hx)
      simp [List.takeWhile_cons, List.dropWhile_cons, ha, ihr.1, ihr.2]

theorem lower_split (cs T : List Char)
    (h : toLowerL cs = "_acme-challenge".data ++ '.' :: T) :
    ∃ A B, cs = A ++ '.' :: B ∧ toLowerL A = "_acme-challenge".data ∧
      toLowerL B = T ∧ ∀ x ∈ A, (x != '.') = true := by
  unfold toLowerL at h
  obtain ⟨A, rest, hcs, hA, hrest⟩ := List.map_eq_append_iff.mp h
  obtain ⟨b, B, hrest2, hb, hB⟩ := List.map_eq_cons_iff.mp hrest
  have hbdot : b = '.' := eq_dot_of_toLower_eq_dot hb
  subst hbdot
  refine ⟨A, B, by rw [hcs, hrest2], hA, hB, ?_⟩
  intro x hx
  by_contra hne
  have hx' : x = '.' := by simpa using hne
  subst hx'
  have hmem : Char.toLower '.' ∈ List.map Char.toLower A := List.mem_map_of_mem _ hx
  rw [hA] at hmem
  have hdot : Char.toLower '.' = '.' := by decide
  rw [hdot] at hmem
  exact absurd hmem (by decide)

theorem isOwnChallenge_of_name (d : DNSServer) (name : String)
    (hdot : d.Domain.data.getLast? = some '.')
    (hdd : d.Domain.data.dropLast.getLast? ≠ some '.')
    (hname : toLowerS name = "_acme-challenge." ++ d.Domain ∨
             toLowerS name ++ "." = "_acme-challenge." ++ d.Domain) :
    isOwnChallenge d name = true := by
  have hshape : "_acme-challenge.".data ++ d.Domain.data =
      "_acme-challenge".data ++ '.' :: d.Domain.data := rfl
  rcases hname with hn | hn
  · have hl : toLowerL name.data = "_acme-challenge".data ++ '.' :: d.Domain.data := by
      have := congrArg String.data hn
      simpa [toLowerS, String.data_append] using this
    obtain ⟨A, B, hcs, hA, hB, hnodot⟩ := lower_split _ _ hl
    have htd := takeWhile_dropWhile_append_cons A '.' B hnodot (by decide)
    unfold isOwnChallenge
    dsimp only
    rw [hcs, htd.1, htd.2]
    simp only [hA, beq_self_eq_true, if_true]
    rw [hB, hdot]
    simp
  · have hne : d.Domain.data ≠ [] := by
      intro h0
      rw [h0] at hdot
      cases hdot
    have hg : d.Domain.data.getLast hne = '.' := by
      have h2 := List.getLast?_eq_getLast _ hne
      rw [hdot] at h2
      exact (Option.some.inj h2).symm
    have hD : d.Domain.data.dropLast ++ ['.'] = d.Domain.data := by
      have := List.dropLast_append_getLast hne
      rw [hg] at this
      exact this
    have hl0 : toLowerL name.data ++ ['.'] =
        ("_acme-challenge".data ++ '.' :: d.Domain.data.dropLast) ++ ['.'] := by
      have := congrArg String.data hn
      simp only [String.data_append, toLowerS] at this
      rw [this]
      rw [hshape]
      rw [← hD]
      simp
    have hl : toLowerL name.data = "_acme-challenge".data ++ '.' :: d.Domain.data.dropLast :=
      List.append_cancel_right hl0
    obtain ⟨A, B, hcs, hA, hB, hnodot⟩ := lower_split _ _ hl
    have htd := takeWhile_dropWhile_append_cons A '.' B hnodot (by decide)
    unfold isOwnChallenge
    dsimp only
    rw [hcs, htd.1, htd.2]
    simp only [hA, beq_self_eq_true, if_true]
    rw [hB]
    have hlast : (d.Domain.data.dropLast.getLast? == some '.') = false := by
      simpa using hdd
    rw [hlast]
    simp only [Bool.false_eq_true, if_false]
    rw [hD]
    simp

/-- C5: a TXT query whose name is `_acme-challenge.<server domain>` —
compared case-insensitively, with the trailing dot normalized, against
the normalized server domain (trailing dot present, not doubled) — is
answered with exactly one TXT record carrying the server's own
`PersonalKeyAuth`, for every state of the credential store (the store
is part of `d` and the conclusion holds for all of them); the response
code is success.  The static zone map carries no entry at the challenge
name, as in the shipped configuration. -/
theorem own_challenge_answered (d : DNSServer) (q : Question)
    (hdot : d.Domain.data.getLast? = some '.')
    (hdd : d.Domain.data.dropLast.getLast? ≠ some '.')
    (hq : q.Qtype = TypeTXT)
    (hname : toLowerS q.Name = "_acme-challenge." ++ d.Domain ∨
             toLowerS q.Name ++ "." = "_acme-challenge." ++ d.Domain)
    (hstatic : lookupDomain d (toLowerS q.Name) = none) :
    (answer d q).1 = [⟨q.Name, TypeTXT, 1, d.PersonalKeyAuth⟩] ∧
    (answer d q).2.1 = RcodeSuccess := by
  have hown : isOwnChallenge d q.Name = true := isOwnChallenge_of_name d q.Name hdot hdd hname
  have hrec : getRecord d q = [] := by
    unfold getRecord
    rw [hstatic]
  constructor <;> simp [answer, hown, hq, hrec, answerOwnChallenge]

theorem own_challenge_answered_witness :
    (answer srvW qOwnW).1 = [⟨qOwnW.Name, TypeTXT, 1, srvW.PersonalKeyAuth⟩] ∧
    (answer srvW qOwnW).2.1 = RcodeSuccess :=
  own_challenge_answered srvW qOwnW (by decide) (by decide) rfl
    (Or.inr (by decide)) (by decide)

theorem length_pos_of_ne_empty {v : String} (h : v ≠ "") : 0 < v.length := by
  cases v with
  | mk data =>
      cases data with
      | nil => exact absurd rfl h
      | cons a l => simp [String.length]

theorem filter_map_subdomain (txt : List TxtRow) (p : TxtRow → Bool) (f : TxtRow → TxtRow)
    (hpf : ∀ x, p (f x) = p x) :
    (txt.map f).filter p = (txt.filter p).map f := by
  induction txt with
  | nil => rfl
  | cons a l ih =>
      simp only [List.map_cons, List.filter_cons, hpf]
      by_cases hs : p a = true
      · simp [hs, ih]
      · simp [hs, ih]

theorem overwrite_keeps_subdomain (sub : String) (rid : Nat) (v : String) (t : Nat) :
    ∀ x : TxtRow,
      ((if x.rowid == rid then { x with Value := v, LastUpdate := t } else x).Subdomain == sub) =
      (x.Subdomain == sub) := by
  intro x
  by_cases h : (x.rowid == rid) = true
  · simp [h]
  · simp [h]

theorem updateRel_two_rows (st : DBState) (sub v : String) (t : Nat) (a b : TxtRow)
    (st' : DBState) (hab : a.rowid ≠ b.rowid)
    (hfil : st.txt.filter (fun r => r.Subdomain == sub) = [a, b])
    (h : UpdateRel st ⟨sub, v⟩ t st') :
    (st'.txt.filter (fun r => r.Subdomain == sub) =
        [{ a with Value := v, LastUpdate := t }, b] ∧ a.LastUpdate ≤ b.LastUpdate) ∨
    (st'.txt.filter (fun r => r.Subdomain == sub) =
        [a, { b with Value := v, LastUpdate := t }] ∧ b.LastUpdate ≤ a.LastUpdate) := by
  rcases h with ⟨r, ⟨hrmem, hrmin⟩, heq⟩ | ⟨hemp, _⟩
  · dsimp only at hrmem hrmin heq
    rw [hfil] at hrmem hrmin
    subst heq
    dsimp only
    rw [filter_map_subdomain _ _ _ (overwrite_keeps_subdomain sub r.rowid v t), hfil]
    have hba : (b.rowid == a.rowid) = false := by simpa using fun hx => hab hx.symm
    have hab' : (a.rowid == b.rowid) = false := by simpa using hab
    rcases List.mem_cons.mp hrmem with hr | hr
    · subst hr
      left
      refine ⟨?_, hrmin b (by simp)⟩
      simp [hba]
      intro hx
      exact absurd hx.symm hab
    · rcases List.mem_cons.mp hr with hr | hr
      · subst hr
        right
        refine ⟨?_, hrmin a (by simp)⟩
        simp [hab']
        intro hx
        exact absurd hx hab
      · cases hr
  · dsimp only at hemp
    rw [hfil] at hemp
    cases hemp

theorem getChallengeValues_of_filter (st : DBState) (sub : String) (rows : List TxtRow)
    (hsan : SanitizeString sub = sub)
    (hfil : st.txt.filter (fun r => r.Subdomain == sub) = rows) :
    GetChallengeValues st sub =
      ((rows.take 2).map (fun r => r.Value)).filter (fun v => 0 < v.length) := by
  unfold GetChallengeValues GetTXTForDomain
  dsimp only
  rw [hsan, hfil]

/-- C1: a registered subdomain's two slot rows realize a depth-2 FIFO.
From the fresh pair (both slots empty, timestamp 0, distinct rowids),
after one update with `v1` the served challenge values are exactly
`[v1]`; after updates `v1`, `v2`, `v3` at increasing timestamps they
are exactly the set `{v2, v3}` — for every outcome the SQL permits at
the initial timestamp tie (`UpdateRel`).  Moreover the executed update
statement always replaces a slot row of minimal update timestamp. -/
theorem txt_rotation_fifo (s s1 s2 s3 : DBState) (sub v1 v2 v3 : String)
    (t1 t2 t3 : Nat) (r1 r2 : TxtRow)
    (hsan : SanitizeString sub = sub)
    (hfresh : s.txt.filter (fun r => r.Subdomain == sub) = [r1, r2])
    (hrowid : r1.rowid ≠ r2.rowid)
    (hr1v : r1.Value = "") (hr1t : r1.LastUpdate = 0)
    (hr2v : r2.Value = "") (hr2t : r2.LastUpdate = 0)
    (hv1 : v1 ≠ "") (hv2 : v2 ≠ "") (hv3 : v3 ≠ "")
    (ht1 : 0 < t1) (ht12 : t1 < t2) (ht23 : t2 < t3)
    (hu1 : UpdateRel s ⟨sub, v1⟩ t1 s1)
    (hu2 : UpdateRel s1 ⟨sub, v2⟩ t2 s2)
    (hu3 : UpdateRel s2 ⟨sub, v3⟩ t3 s3) :
    GetChallengeValues s1 sub = [v1] ∧
    (GetChallengeValues s3 sub).Perm [v2, v3] ∧
    ∀ (st : DBState) (p : ACMETxtPost) (tn : Nat), UpdateRel st p tn (Update st p tn) := by
  rcases updateRel_two_rows s sub v1 t1 r1 r2 s1 hrowid hfresh hu1 with
    ⟨hf1, _⟩ | ⟨hf1, _⟩
  · have hval1 : GetChallengeValues s1 sub = [v1] := by
      rw [getChallengeValues_of_filter s1 sub _ hsan hf1]
      simp [hr2v, length_pos_of_ne_empty hv1]
    have hab2 : ({ r1 with Value := v1, LastUpdate := t1 } : TxtRow).rowid ≠ r2.rowid := hrowid
    rcases updateRel_two_rows s1 sub v2 t2 _ r2 s2 hab2 hf1 hu2 with
      ⟨hf2, hmin2⟩ | ⟨hf2, hmin2⟩
    · exfalso
      have hx : t1 ≤ 0 := by simpa [hr2t] using hmin2
      omega
    · have hab3 : ({ r1 with Value := v1, LastUpdate := t1 } : TxtRow).rowid ≠
          ({ r2 with Value := v2, LastUpdate := t2 } : TxtRow).rowid := hrowid
      rcases updateRel_two_rows s2 sub v3 t3 _ _ s3 hab3 hf2 hu3 with
        ⟨hf3, hmin3⟩ | ⟨hf3, hmin3⟩
      · refine ⟨hval1, ?_, update_refines_updateRel⟩
        rw [getChallengeValues_of_filter s3 sub _ hsan hf3]
        have hp2 : 0 < v2.length := length_pos_of_ne_empty hv2
        have hp3 : 0 < v3.length := length_pos_of_ne_empty hv3
        simp [hp2, hp3]
        exact List.Perm.swap v2 v3 []
      · exfalso
        have hx : t2 ≤ t1 := by simpa using hmin3
        omega
  · have hval1 : GetChallengeValues s1 sub = [v1] := by
      rw [getChallengeValues_of_filter s1 sub _ hsan hf1]
      simp [hr1v, length_pos_of_ne_empty hv1]
    have hab2 : r1.rowid ≠ ({ r2 with Value := v1, LastUpdate := t1 } : TxtRow).rowid := hrowid
    rcases updateRel_two_rows s1 sub v2 t2 r1 _ s2 hab2 hf1 hu2 with
      ⟨hf2, hmin2⟩ | ⟨hf2, hmin2⟩
    · have hab3 : ({ r1 with Value := v2, LastUpdate := t2 } : TxtRow).rowid ≠
          ({ r2 with Value := v1, LastUpdate := t1 } : TxtRow).rowid := hrowid
      rcases updateRel_two_rows s2 sub v3 t3 _ _ s3 hab3 hf2 hu3 with
        ⟨hf3, hmin3⟩ | ⟨hf3, hmin3⟩
      · exfalso
        have hx : t2 ≤ t1 := by simpa using hmin3
        omega
      · refine ⟨hval1, ?_, update_refines_updateRel⟩
        rw [getChallengeValues_of_filter s3 sub _ hsan hf3]
        have hp2 : 0 < v2.length := length_pos_of_ne_empty hv2
        have hp3 : 0 < v3.length := length_pos_of_ne_empty hv3
        simp [hp2, hp3]
    · exfalso
      have hx : t1 ≤ 0 := by simpa [hr1t] using hmin2
      omega

theorem txt_rotation_fifo_witness :
    GetChallengeValues dbC1s1 "sub" = ["v1"] ∧
    (GetChallengeValues dbC1s3 "sub").Perm ["v2", "v3"] :=
  have h := txt_rotation_fifo dbFresh dbC1s1 dbC1s2 dbC1s3 "sub" "v1" "v2" "v3" 10 20 30
    ⟨1, "sub", "", 0⟩ ⟨2, "sub", "", 0⟩ (by decide) (by decide) (by decide) rfl rfl rfl rfl
    (by decide) (by decide) (by decide) (by decide) (by decide) (by decide)
    (Or.inl ⟨⟨1, "sub", "", 0⟩, ⟨by decide, by decide⟩, by decide⟩)
    (Or.inl ⟨⟨2, "sub", "", 0⟩, ⟨by decide, by decide⟩, by decide⟩)
    (Or.inl ⟨⟨1, "sub", "v1", 10⟩, ⟨by decide, by decide⟩, by decide⟩)
  ⟨h.1, h.2.1⟩

theorem getChallengeValues_spec_witness :
    GetChallengeValues dbFresh "zzz" = [] ∧
    (GetChallengeValues dbFresh "zzz").length ≤ 2 :=
  ⟨(getChallengeValues_spec dbFresh "zzz").1 (by decide),
   (getChallengeValues_spec dbFresh "zzz").2.1⟩
